import Mathlib

/-!
# OrbitShell — verification of core components

A shallow embedding of the algorithmic core of the OrbitShell terminal
front-end, translated from the Rust sources:

* `src/ui/text_edit.rs` and the editor parts of `src/ui/views/tab_view.rs`
  (line-editing primitives),
* `src/terminal/buffer.rs` (ANSI sanitizer and scrollback buffer),
* the history, suggestion, block-processing parts of
  `src/ui/views/tab_view.rs`,
* the search parts of `src/ui/views/sidebar_view.rs`.

Rust `String` values are modelled as `List Char` (sequences of Unicode
scalar values); the code indexes, splices and trims by scalar, so this is
the natural carrier.  File contents are handed to the history loaders as
the list of lines that Rust's `str::lines` would produce, and filesystem /
pty side effects (reads, writes, git queries) are modelled by explicit
inputs; everything else follows the source line by line.
-/

/-- Rust `String`, as a list of Unicode scalar values. -/
abbrev RStr := List Char

/-- Rust `str::trim`: drop whitespace scalars from both ends.
(`Char.isWhitespace` stands in for Rust's `char::is_whitespace`.) -/
def rustTrim (l : RStr) : RStr :=
  ((l.dropWhile Char.isWhitespace).reverse.dropWhile Char.isWhitespace).reverse

/-- Rust `str::to_ascii_lowercase`, scalar by scalar.  `Char.toLower`
lowercases exactly the ASCII range, matching the Rust call. -/
def toAsciiLower (l : RStr) : RStr :=
  l.map Char.toLower

/-- Rust `str::starts_with` on our string model. -/
def rstrStartsWith (l pat : RStr) : Bool :=
  pat.isPrefixOf l

/-- Rust `str::ends_with(char)` on our string model. -/
def rstrEndsWithChar (l : RStr) (c : Char) : Bool :=
  l.getLast? = some c

/-- Rust `str::contains(&str)`: some suffix of `l` starts with `pat`. -/
def rstrContains (l pat : RStr) : Bool :=
  (List.range (l.length + 1)).any (fun i => pat.isPrefixOf (l.drop i))

/-!
## EditorState — line-editing primitives

`TabView` in `src/ui/views/tab_view.rs` keeps `input`, `cursor`,
`selection` and `selection_anchor`; `TextEditState` in
`src/ui/text_edit.rs` operates on the same four components passed by
reference.  We package them as one structure and give both variants of
each operation (they differ only in which selection fields they clear).
-/

/-- The editable-field state: `{ input/text, cursor, selection, anchor }`. -/
structure EditorState where
  input : RStr
  cursor : Nat
  selection : Option (Nat × Nat)
  selection_anchor : Option Nat
deriving DecidableEq

namespace TabView

/-- `TabView::normalized_selection` (tab_view.rs:1488). -/
def normalized_selection (s : EditorState) : Option (Nat × Nat) :=
  s.selection.map (fun p => if p.1 ≤ p.2 then p else (p.2, p.1))

/-- `TabView::has_selection` (tab_view.rs:1484). -/
def has_selection (s : EditorState) : Bool :=
  match s.selection with
  | some (a, b) => a ≠ b
  | none => false

/-- `TabView::delete_selection_if_any` (tab_view.rs:1503): remove the
normalized selection span `[a, b)` (kept indices are `i < a ∨ i ≥ b`,
i.e. `take a ++ drop b`), put the cursor at `a`, clear the selection.
Returns the state and the `bool` the Rust function returns. -/
def delete_selection_if_any (s : EditorState) : EditorState × Bool :=
  match normalized_selection s with
  | none => (s, false)
  | some (a, b) =>
    if a = b then (s, false)
    else
      ({ input := s.input.take a ++ s.input.drop b
         cursor := a
         selection := none
         selection_anchor := none }, true)

/-- `TabView::insert_text` (tab_view.rs:1615): delete the selection if
any, splice `text` at the cursor, advance the cursor by `text.length`
clamped to the new length, and clear the anchor (the Rust function resets
only `selection_anchor` here). -/
def insert_text (s : EditorState) (text : RStr) : EditorState :=
  let s := (delete_selection_if_any s).1
  let out := s.input.take s.cursor ++ text ++ s.input.drop s.cursor
  { s with
    input := out
    cursor := min (s.cursor + text.length) out.length
    selection_anchor := none }

/-- `TabView::pop_char_before_cursor` (tab_view.rs:1633): no-op at 0,
otherwise remove the scalar at `cursor - 1` and decrement the cursor. -/
def pop_char_before_cursor (s : EditorState) : EditorState :=
  if s.cursor = 0 then s
  else
    { s with
      input := s.input.eraseIdx (s.cursor - 1)
      cursor := s.cursor - 1
      selection_anchor := none }

end TabView

namespace TextEditState

/-- `TextEditState::normalized_selection` (text_edit.rs:16). -/
def normalized_selection (s : EditorState) : Option (Nat × Nat) :=
  s.selection.map (fun p => if p.1 ≤ p.2 then p else (p.2, p.1))

/-- `TextEditState::has_selection` (text_edit.rs:20). -/
def has_selection (s : EditorState) : Bool :=
  match normalized_selection s with
  | some (a, b) => a ≠ b
  | none => false

/-- `TextEditState::delete_selection_if_any` (text_edit.rs:52). -/
def delete_selection_if_any (s : EditorState) : EditorState × Bool :=
  match normalized_selection s with
  | none => (s, false)
  | some (a, b) =>
    if a = b then (s, false)
    else
      ({ input := s.input.take a ++ s.input.drop b
         cursor := a
         selection := none
         selection_anchor := none }, true)

/-- `TextEditState::insert_text` (text_edit.rs:76): like the `TabView`
variant but ends with `clear_selection`, resetting both selection fields. -/
def insert_text (s : EditorState) (text : RStr) : EditorState :=
  let s := (delete_selection_if_any s).1
  let out := s.input.take s.cursor ++ text ++ s.input.drop s.cursor
  { input := out
    cursor := min (s.cursor + text.length) out.length
    selection := none
    selection_anchor := none }

/-- `TextEditState::pop_char_before_cursor` (text_edit.rs:94): also ends
with `clear_selection`. -/
def pop_char_before_cursor (s : EditorState) : EditorState :=
  if s.cursor = 0 then s
  else
    { input := s.input.eraseIdx (s.cursor - 1)
      cursor := s.cursor - 1
      selection := none
      selection_anchor := none }

end TextEditState

/-- One editor call: `insertText s` or `deleteBackward`
(`pop_char_before_cursor`). -/
inductive EditOp where
  | insertText (t : RStr)
  | deleteBackward
deriving DecidableEq

/-- Apply one op with the `TabView` implementations. -/
def TabView.applyOp (s : EditorState) : EditOp → EditorState
  | .insertText t => TabView.insert_text s t
  | .deleteBackward => TabView.pop_char_before_cursor s

/-- Apply a sequence of ops with the `TabView` implementations. -/
def TabView.applyOps (s : EditorState) (ops : List EditOp) : EditorState :=
  ops.foldl TabView.applyOp s

/-- Apply one op with the `TextEditState` implementations. -/
def TextEditState.applyOp (s : EditorState) : EditOp → EditorState
  | .insertText t => TextEditState.insert_text s t
  | .deleteBackward => TextEditState.pop_char_before_cursor s

/-- Apply a sequence of ops with the `TextEditState` implementations. -/
def TextEditState.applyOps (s : EditorState) (ops : List EditOp) : EditorState :=
  ops.foldl TextEditState.applyOp s

/-!
## AnsiSanitizer — `strip_ansi`

Two byte-identical copies live in `src/terminal/buffer.rs:45` and
`src/ui/views/tab_view.rs:2345`; this is their common embedding.  The
scanner walks the scalar stream: on ESC it peeks at the next scalar;
`[` starts a CSI sequence (discard until a scalar in `'@'..='~'`,
inclusive, which is itself discarded), `]` starts an OSC sequence
(discard until BEL or the two-scalar terminator `ESC \`), and for any
other scalar the Rust arm runs `continue` — which drops the ESC but,
unlike the comment above it claims, does NOT consume the following
scalar; the loop then processes that scalar normally.
-/

/-- CSI tail: discard scalars until one in `'@'..='~'` is found; that
terminator is discarded too. -/
def skipCsi : List Char → List Char
  | [] => []
  | c :: rest => if '@' ≤ c ∧ c ≤ '~' then rest else skipCsi rest

/-- OSC tail: discard scalars until BEL, or until `\` preceded by ESC
(`prev` is the previously examined scalar, initially `'\x00'`). -/
def skipOsc : Char → List Char → List Char
  | _, [] => []
  | prev, c :: rest =>
    if c = '\x07' ∨ (prev = '\x1b' ∧ c = '\\') then rest else skipOsc c rest

theorem skipCsi_length_le (l : List Char) : (skipCsi l).length ≤ l.length := by
  induction l with
  | nil => simp [skipCsi]
  | cons c rest ih =>
    simp only [skipCsi]
    split
    · simp
    · exact Nat.le_succ_of_le ih

theorem skipOsc_length_le (p : Char) (l : List Char) :
    (skipOsc p l).length ≤ l.length := by
  induction l generalizing p with
  | nil => simp [skipOsc]
  | cons c rest ih =>
    simp only [skipOsc]
    split
    · simp
    · exact Nat.le_succ_of_le (ih c)

/-- The scanner loop of `strip_ansi`.  Every iteration strictly shrinks
the remaining input (`skipCsi`/`skipOsc` only drop scalars), so running
it with `fuel = length` never exhausts the fuel; the fuel only makes the
recursion structural. -/
def strip_ansi_go : Nat → List Char → List Char
  | 0, _ => []
  | _, [] => []
  | fuel + 1, c :: rest =>
    if c = '\x1b' then
      match rest with
      | [] => []
      | next :: rest2 =>
        if next = '[' then strip_ansi_go fuel (skipCsi rest2)
        else if next = ']' then strip_ansi_go fuel (skipOsc '\x00' rest2)
        else strip_ansi_go fuel (next :: rest2)
    else c :: strip_ansi_go fuel rest

/-- `strip_ansi` (buffer.rs:45 / tab_view.rs:2345). -/
def strip_ansi (l : List Char) : List Char :=
  strip_ansi_go l.length l

/-!
## TerminalBuffer — scrollback (`src/terminal/buffer.rs:1`)
-/

/-- The scrollback buffer: retained lines plus the configured cap. -/
structure TerminalBuffer where
  lines : List RStr
  max_scrollback : Nat
deriving DecidableEq

/-- `TerminalBuffer::new` (buffer.rs:7). -/
def TerminalBuffer.new (max_scrollback : Nat) : TerminalBuffer :=
  { lines := [], max_scrollback := max_scrollback }

/-- `TerminalBuffer::push_line` (buffer.rs:14): when already at (or past)
the cap, `Vec::remove(0)` evicts the oldest line, then the new line is
pushed.  (`remove(0)` on an empty vector — reachable only with cap 0 —
panics in Rust; the embedding totalizes it as a no-op.) -/
def TerminalBuffer.push_line (b : TerminalBuffer) (line : RStr) : TerminalBuffer :=
  let ls := if b.max_scrollback ≤ b.lines.length then b.lines.drop 1 else b.lines
  { b with lines := ls ++ [line] }

/-!
## HistoryStore (`src/ui/views/tab_view.rs`)

The store is a `VecDeque<String>`, newest at the front; we model it as a
`List RStr` with the front at the head.  The startup merge threads a
`HashSet<String>` of already-seen commands; we model the set as the list
of seen strings.  Each loader receives `Option (List RStr)` — the lines
of the file as Rust's `str::lines` yields them, or `none` when the read
fails (the `else return` arms of the Rust loaders).
-/

/-- One `if seen.insert(line) { history.push_front(line) }` step shared by
the loaders; the pair is `(history, seen)`. -/
def historyInsert (hs : List RStr × List RStr) (line : RStr) :
    List RStr × List RStr :=
  if hs.2.contains line then hs else (line :: hs.1, line :: hs.2)

/-- `TabView::load_history_from_file` (tab_view.rs:1890): keep non-blank
lines, then walk them in reverse order pushing unseen ones to the front. -/
def load_history_from_file (lines : List RStr) (hs : List RStr × List RStr) :
    List RStr × List RStr :=
  ((lines.filter (fun l => !(rustTrim l).isEmpty)).reverse).foldl historyInsert hs

/-- The suffix after the first `;`, as zsh FC-timestamped lines store the
command there; the whole line when there is no `;`
(`line.find(';')` in tab_view.rs:1827). -/
def afterFirstSemicolon (l : RStr) : RStr :=
  if l.contains ';' then (l.dropWhile (fun c => ¬(c = ';'))).drop 1 else l

/-- One line of `TabView::load_zsh_history` (tab_view.rs:1814). -/
def zshStep (hs : List RStr × List RStr) (line : RStr) :
    List RStr × List RStr :=
  let t := rustTrim line
  if t.isEmpty then hs
  else
    let cmd := rustTrim (afterFirstSemicolon t)
    if cmd.isEmpty then hs else historyInsert hs cmd

/-- `TabView::load_zsh_history`, over the optional file contents. -/
def load_zsh_history (file : Option (List RStr)) (hs : List RStr × List RStr) :
    List RStr × List RStr :=
  match file with
  | none => hs
  | some lines => lines.reverse.foldl zshStep hs

/-- One line of `TabView::load_fish_history` (tab_view.rs:1842):
`- cmd:`-prefixed (or `cmd:`-prefixed) lines carry commands. -/
def fishStep (hs : List RStr × List RStr) (line : RStr) :
    List RStr × List RStr :=
  let t := rustTrim line
  if rstrStartsWith t "- cmd:".data then
    let cmd := rustTrim (t.drop "- cmd:".data.length)
    if cmd.isEmpty then hs else historyInsert hs cmd
  else if rstrStartsWith t "cmd:".data then
    let cmd := rustTrim (t.drop "cmd:".data.length)
    if cmd.isEmpty then hs else historyInsert hs cmd
  else hs

/-- `TabView::load_fish_history`, over the optional file contents. -/
def load_fish_history (file : Option (List RStr)) (hs : List RStr × List RStr) :
    List RStr × List RStr :=
  match file with
  | none => hs
  | some lines => lines.reverse.foldl fishStep hs

/-- `TabView::load_history_from_file` lifted to an optional file. -/
def load_plain_history (file : Option (List RStr)) (hs : List RStr × List RStr) :
    List RStr × List RStr :=
  match file with
  | none => hs
  | some lines => load_history_from_file lines hs

/-- `TabView::load_unix_shell_history` (tab_view.rs:1799): bash (plain),
then zsh, then fish, sharing the seen-set. -/
def load_unix_shell_history (bash zsh fish : Option (List RStr))
    (hs : List RStr × List RStr) : List RStr × List RStr :=
  load_fish_history fish (load_zsh_history zsh (load_plain_history bash hs))

/-- `TabView::load_initial_history` (tab_view.rs:1746), non-Windows
branch: the application's own `history.txt` first, then the external
shell histories.  Arguments are the optional line-lists of the four
sources; the returned list is the merged store, newest first.  (The
persisted-log path the Rust function also returns is filesystem plumbing
and not modelled.) -/
def load_initial_history (app bash zsh fish : Option (List RStr)) : List RStr :=
  (load_unix_shell_history bash zsh fish (load_plain_history app ([], []))).1

/-- `TabView::push_history` (tab_view.rs:1284): adjacent-duplicate
suppression, prepend, evict from the back past capacity 2000.  (The
append to the persisted log file is I/O and not modelled.) -/
def push_history (h : List RStr) (command : RStr) : List RStr :=
  if h.head? = some command then h
  else
    let h := command :: h
    if 2000 < h.length then h.dropLast else h

/-!
## SuggestionEngine (`src/ui/views/tab_view.rs`)
-/

/-- The `SuggestSource` enum of tab_view.rs. -/
inductive SuggestSource where
  | history
  | command
  | path
deriving DecidableEq

/-- `SuggestionItem { display, insert, source }`. -/
structure SuggestionItem where
  display : RStr
  insert : RStr
  source : SuggestSource
deriving DecidableEq

/-- One of the three identical loops of `TabView::dedupe_suggestions`
(tab_view.rs:1916): push items whose `insert` the seen-set has not met
yet; the pair is `(seen, out)` with `out` in emission order. -/
def dedupePass (acc : List RStr × List SuggestionItem) (items : List SuggestionItem) :
    List RStr × List SuggestionItem :=
  items.foldl
    (fun acc item =>
      if acc.1.contains item.insert then acc
      else (item.insert :: acc.1, acc.2 ++ [item]))
    acc

/-- `TabView::dedupe_suggestions` (tab_view.rs:1916): history, then path,
then command items, deduplicated by `insert` with one shared seen-set. -/
def dedupe_suggestions (history_items path_items command_items : List SuggestionItem) :
    List SuggestionItem :=
  (dedupePass (dedupePass (dedupePass ([], []) history_items) path_items) command_items).2

/-- The comparator of `sort_by(|a, b| a.display.cmp(&b.display))` as a
`Bool` relation: lexicographic order on the display string. -/
def displayLe (a b : SuggestionItem) : Bool :=
  decide (a.display ≤ b.display)

/-- Rust's stable `sort_by` on `display` (tab_view.rs:1428 and 1440),
modelled by the stable `List.mergeSort`. -/
def sortByDisplay (items : List SuggestionItem) : List SuggestionItem :=
  items.mergeSort displayLe

/-- The tail of `TabView::refresh_suggestions` (tab_view.rs:1404): sort
the path items and the command items by display string, then combine with
`dedupe_suggestions`.  (Candidate collection itself reads the filesystem
and the environment; the claim quantifies over arbitrary candidate
lists.) -/
def refreshCombine (history_items path_items command_items : List SuggestionItem) :
    List SuggestionItem :=
  dedupe_suggestions history_items (sortByDisplay path_items) (sortByDisplay command_items)

/-- Specification-side rendering of "de-duplicated by `insertText`, first
occurrence wins": keep an element iff its insert text has not occurred
earlier (`seen` accumulates the kept insert texts). -/
def keepFirstByInsert (seen : List RStr) : List SuggestionItem → List SuggestionItem
  | [] => []
  | x :: xs =>
    if x.insert ∈ seen then keepFirstByInsert seen xs
    else x :: keepFirstByInsert (x.insert :: seen) xs

/-!
## SearchEngine, consumer side (`src/ui/views/sidebar_view.rs:476`)

`run_search` bumps the `u64` generation (`wrapping_add(1)`), publishes it
in the shared cancel flag, resets the visible results, and (for a
non-empty query) spawns a worker; the async consumer loop applies
`Batch`/`Done` messages against the *current* generation.  Generations
are `Nat` reduced mod `2^64`.
-/

/-- `2^64`, the wrap modulus of the `u64` generation counter. -/
def U64MOD : Nat := 2 ^ 64

/-- `SearchResult` (sidebar_view.rs:38). -/
structure SearchResultS where
  path : RStr
  line : Nat
  text : RStr
  is_filename : Bool
deriving DecidableEq

/-- `SearchMessage` (sidebar_view.rs:17). -/
inductive SearchMessageS where
  | batch (generation : Nat) (results : List SearchResultS)
  | done (generation : Nat)
deriving DecidableEq

/-- The search-related state of `SidebarView` (sidebar_view.rs:88-97)
plus the `search_limit` drawn from its rules. -/
structure SidebarSearch where
  search_generation : Nat
  search_cancel : Nat
  search_results : List SearchResultS
  search_pending : Bool
  search_expanded_files : List RStr
  search_user_toggled : Bool
  search_limit : Nat
deriving DecidableEq

/-- The state mutations of `SidebarView::run_search` (sidebar_view.rs:476):
wrapping-increment the generation, store it in the shared cancel flag,
clear the visible results; an empty (trimmed) query resets
`search_pending` and spawns nothing. -/
def run_search (s : SidebarSearch) (query : RStr) : SidebarSearch :=
  let query := rustTrim query
  let g := (s.search_generation + 1) % U64MOD
  let s := { s with
    search_generation := g
    search_cancel := g
    search_pending := true
    search_results := []
    search_expanded_files := []
    search_user_toggled := false }
  if query.isEmpty then { s with search_pending := false } else s

/-- The consumer arm for one message (the `view.update` closure in
sidebar_view.rs:531): a `Batch` is applied only when its generation
matches the active one and the visible set is below the cap (truncating
to the remaining space); a `Done` for the active generation clears
`search_pending`. -/
def apply_message (s : SidebarSearch) : SearchMessageS → SidebarSearch
  | .batch generation_id results =>
    if s.search_generation ≠ generation_id then s
    else if s.search_limit ≤ s.search_results.length then s
    else
      let space := s.search_limit - s.search_results.length
      let results := if space < results.length then results.take space else results
      let expanded :=
        if !s.search_user_toggled then
          results.foldl
            (fun acc r => if acc.contains r.path then acc else acc ++ [r.path])
            s.search_expanded_files
        else s.search_expanded_files
      { s with
        search_results := s.search_results ++ results
        search_expanded_files := expanded
        search_pending := true }
  | .done generation_id =>
    if s.search_generation = generation_id then { s with search_pending := false }
    else s

/-- Drain a list of messages in arrival order. -/
def apply_messages (s : SidebarSearch) (ms : List SearchMessageS) : SidebarSearch :=
  ms.foldl apply_message s

/-!
## BlockProcessor (`src/ui/views/tab_view.rs`)

The output-side state of `TabView`: command blocks, the pending-echo
expectation, and the prompt/continuation flags.  Fields that only drive
rendering (scroll handles, overlays, the suggestion caches) are omitted;
`refresh_git_status` is an external version-control query and leaves the
modelled state unchanged.
-/

/-- `crate::git::GitStatus` as consumed by `TabView`. -/
structure GitStatusS where
  branch : RStr
  files_changed : Nat
  added : Nat
  deleted : Nat
  modified : Nat
deriving DecidableEq

/-- `BlockContext` (tab_view.rs), the snapshot captured at issue time. -/
structure BlockContextS where
  cwd : RStr
  git_branch : Option RStr
  git_files : Option Nat
  git_added : Option Nat
  git_deleted : Option Nat
  git_modified : Option Nat
deriving DecidableEq

/-- `Block { command, output_lines, has_error, context }`. -/
structure BlockS where
  command : RStr
  output_lines : List RStr
  has_error : Bool
  context : Option BlockContextS
deriving DecidableEq

/-- The block-processing fields of `TabView`. -/
structure TabState where
  input : RStr
  cursor : Nat
  selection : Option (Nat × Nat)
  selection_anchor : Option Nat
  history : List RStr
  pending_echo : Option RStr
  blocks : List BlockS
  input_visible : Bool
  needs_git_refresh : Bool
  current_path : RStr
  git_status : Option GitStatusS
deriving DecidableEq

/-- `TabView::is_prompt_line` (tab_view.rs:2077). -/
def is_prompt_line (line : RStr) : Bool :=
  let trimmed := rustTrim line
  rstrStartsWith trimmed "PS ".data && rstrEndsWithChar trimmed '>'

/-- `TabView::is_error_line` (tab_view.rs:2140). -/
def is_error_line (line : RStr) : Bool :=
  let s := toAsciiLower (rustTrim line)
  rstrContains s "not recognized as".data || rstrContains s "is not recognized".data ||
    rstrContains s "cannot find path".data || rstrContains s "categoryinfo".data ||
    rstrContains s "fullyqualifiederrorid".data || rstrStartsWith s "error:".data ||
    rstrContains s "exception".data || rstrContains s "at line:".data

/-- `TabView::run_command` (tab_view.rs:955): trim, record the
branch-switch flag, push the command into history, arm the pending-echo
expectation, open a new block with a context snapshot, and reset the
input line.  (The pty write and scrolling are side effects outside the
model.) -/
def run_command (s : TabState) (command : RStr) : TabState :=
  let command := rustTrim command
  if command.isEmpty then s
  else
    let lower := toAsciiLower command
    { s with
      needs_git_refresh :=
        rstrStartsWith lower "git checkout".data || rstrStartsWith lower "git switch".data
      history := push_history s.history command
      pending_echo := some command
      blocks := s.blocks ++
        [{ command := command
           output_lines := []
           has_error := false
           context := some
             { cwd := s.current_path
               git_branch := s.git_status.map (fun g => g.branch)
               git_files := s.git_status.map (fun g => g.files_changed)
               git_added := s.git_status.map (fun g => g.added)
               git_deleted := s.git_status.map (fun g => g.deleted)
               git_modified := s.git_status.map (fun g => g.modified) } }]
      input := []
      cursor := 0
      selection := none
      selection_anchor := none
      input_visible := false }

/-- `TabView::should_skip_output_line` (tab_view.rs:2082): a line whose
trimmed text equals the pending echo is swallowed (clearing the
expectation); otherwise the `>>` continuation marker and prompt lines are
swallowed (the prompt arm also clears `needs_git_refresh` and triggers
the external status refresh). -/
def should_skip_output_line (s : TabState) (line : RStr) : Bool × TabState :=
  let trimmed := rustTrim line
  let echoHit :=
    match s.pending_echo with
    | some expected => trimmed == expected
    | none => false
  if echoHit then (true, { s with pending_echo := none })
  else if trimmed = ">>".data then (true, { s with input_visible := true })
  else if is_prompt_line trimmed then
    (true, { s with input_visible := true, needs_git_refresh := false })
  else (false, s)

/-- `TabView::ensure_output_block` (tab_view.rs:2016): make sure a block
exists to receive output. -/
def ensure_push_block (blocks : List BlockS) : List BlockS :=
  if blocks.isEmpty then
    [{ command := [], output_lines := [], has_error := false, context := none }]
  else blocks

/-- Mutate the last block in place, as `blocks.last_mut()` does. -/
def modifyLast (blocks : List BlockS) (f : BlockS → BlockS) : List BlockS :=
  match blocks.getLast? with
  | none => blocks
  | some b => blocks.dropLast ++ [f b]

/-- `TabView::append_output_new_line` (tab_view.rs:2128): skip the line
or append it to the current block, classifying error lines. -/
def append_output_new_line (s : TabState) (line : RStr) : TabState :=
  let r := should_skip_output_line s line
  if r.1 then r.2
  else
    let s := r.2
    let blocks := ensure_push_block s.blocks
    let blocks := modifyLast blocks (fun b =>
      { b with
        has_error := b.has_error || is_error_line line
        output_lines := b.output_lines ++ [line] })
    { s with blocks := blocks }

/-!
## SearchEngine, worker side (`src/ui/views/sidebar_view.rs:589`)

`search_in_dir_stream_with_fs` walks an explicit directory stack; for a
non-directory entry it (1) applies the skip-file rule, (2) emits a
filename match when the lowercased name contains the lowercased query,
then (3) opens the file and scans its lines — unless the size cap or the
null-byte probe fires, which `continue`s to the next entry.  We embed the
per-entry body; the filesystem's answers for the entry (metadata, the
512-byte probe read, the line reader) arrive as an explicit `FileProbe`.
`to_lowercase()` on names agrees with `to_ascii_lowercase()` on ASCII and
both are modelled by `toAsciiLower`.
-/

/-- The `orbitshell_rules.json` configuration (sidebar_view.rs:64). -/
structure OrbitshellRules where
  skip_dirs : List RStr
  skip_files : List RStr
  max_file_kb : Nat
  search_limit : Nat
deriving DecidableEq

/-- `SidebarView::should_skip_dir` (sidebar_view.rs:682). -/
def should_skip_dir (name : RStr) (rules : OrbitshellRules) : Bool :=
  rules.skip_dirs.contains (toAsciiLower name)

/-- `SidebarView::should_skip_file` (sidebar_view.rs:687). -/
def should_skip_file (name : RStr) (rules : OrbitshellRules) : Bool :=
  rules.skip_files.contains (toAsciiLower name)

/-- What the filesystem answers for one opened file: `metadata().len()`
(`none` = metadata error), the `Ok(n)`-byte probe buffer (`none` = read
error), and the `BufReader::lines` stream (`none` entries are `Err`
lines, which the scanner skips). -/
structure FileProbe where
  meta_len : Option Nat
  peek : Option (List Nat)
  lines : List (Option RStr)
deriving DecidableEq

/-- The size cap (sidebar_view.rs:643): fires when metadata is available
and `len > max_file_kb * 1024`. -/
def size_cap_hit (rules : OrbitshellRules) (fp : FileProbe) : Bool :=
  match fp.meta_len with
  | some len => decide (rules.max_file_kb * 1024 < len)
  | none => false

/-- The binary heuristic (sidebar_view.rs:648): fires when the probe read
succeeded and the buffer contains a null byte. -/
def null_byte_hit (fp : FileProbe) : Bool :=
  match fp.peek with
  | some bytes => bytes.contains 0
  | none => false

/-- `lower.find(&q)`: index of the first position where `q` occurs. -/
def findSubIdx (l pat : RStr) : Option Nat :=
  (List.range (l.length + 1)).find? (fun i => pat.isPrefixOf (l.drop i))

/-- The inner left loop of `make_snippet` (sidebar_view.rs:1390):
`while start > 0 && chars[start].is_whitespace() { start -= 1; }`. -/
def slideWsLeft (chars : List Char) : Nat → Nat
  | 0 => 0
  | s + 1 => if (chars.getD (s + 1) 'x').isWhitespace then slideWsLeft chars s else s + 1

theorem slideWsLeft_le (chars : List Char) (s : Nat) : slideWsLeft chars s ≤ s := by
  induction s with
  | zero => simp [slideWsLeft]
  | succ s ih =>
    simp only [slideWsLeft]
    split
    · exact Nat.le_succ_of_le ih
    · exact Nat.le_refl _

/-- The outer left loop of `make_snippet` (sidebar_view.rs:1387): walk
left word by word until `padding` words were crossed. -/
def padWordsLeft (chars : List Char) (padding : Nat) : Nat → Nat → Nat
  | 0, _ => 0
  | s + 1, words =>
    if padding ≤ words then s + 1
    else if (chars.getD s 'x').isWhitespace then
      padWordsLeft chars padding (slideWsLeft chars s) (words + 1)
    else
      padWordsLeft chars padding s words
termination_by s _ => s
decreasing_by
  · exact Nat.lt_succ_of_le (slideWsLeft_le chars s)
  · exact Nat.lt_succ_self s

/-- The final left adjustment (sidebar_view.rs:1396):
`while start > 0 && !chars[start - 1].is_whitespace() { start -= 1; }`. -/
def slideWordLeft (chars : List Char) : Nat → Nat
  | 0 => 0
  | s + 1 => if ¬(chars.getD s 'x').isWhitespace then slideWordLeft chars s else s + 1

/-- The inner right loop (sidebar_view.rs:1404):
`while end < chars.len() && chars[end].is_whitespace() { end += 1; }`. -/
def slideWsRight (chars : List Char) (e : Nat) : Nat :=
  if e < chars.length ∧ (chars.getD e 'x').isWhitespace then slideWsRight chars (e + 1)
  else e
termination_by chars.length - e

theorem slideWsRight_ge (chars : List Char) (e : Nat) : e ≤ slideWsRight chars e := by
  rw [slideWsRight]
  split
  · have h := slideWsRight_ge chars (e + 1)
    omega
  · exact Nat.le_refl _
termination_by chars.length - e
decreasing_by
  rename_i h
  omega

/-- The outer right loop of `make_snippet` (sidebar_view.rs:1402). -/
def padWordsRight (chars : List Char) (padding : Nat) (e words : Nat) : Nat :=
  if h : e < chars.length ∧ words < padding then
    if hw : (chars.getD e 'x').isWhitespace then
      padWordsRight chars padding (slideWsRight chars e) (words + 1)
    else
      padWordsRight chars padding (e + 1) words
  else e
termination_by chars.length - e
decreasing_by
  · have h1 : slideWsRight chars e = slideWsRight chars (e + 1) := by
      conv_lhs => rw [slideWsRight]
      rw [if_pos (And.intro h.1 hw)]
    have h2 := slideWsRight_ge chars (e + 1)
    omega
  · omega

/-- The final right adjustment (sidebar_view.rs:1412):
`while end < chars.len() && !chars[end].is_whitespace() { end += 1; }`. -/
def slideWordRight (chars : List Char) (e : Nat) : Nat :=
  if e < chars.length ∧ ¬(chars.getD e 'x').isWhitespace then slideWordRight chars (e + 1)
  else e
termination_by chars.length - e

/-- `make_snippet` (sidebar_view.rs:1375): expand the match left and
right by `padding` whitespace-delimited words, trim to word boundaries,
and mark truncation with ellipses; when the query does not occur (or is
empty) fall back to the first 80 scalars. -/
def make_snippet (line query : RStr) (padding : Nat) : RStr :=
  let lower := toAsciiLower line
  let q := toAsciiLower query
  if q.isEmpty then line.take 80
  else
    match findSubIdx lower q with
    | some char_pos =>
      let chars := line
      let start := slideWordLeft chars (padWordsLeft chars padding char_pos 0)
      let e := min (char_pos + q.length) chars.length
      let e := slideWordRight chars (padWordsRight chars padding e 0)
      let snippet := (chars.drop start).take (e - start)
      let snippet := if 0 < start then '…' :: snippet else snippet
      if e < chars.length then snippet ++ ['…'] else snippet
    | none => line.take 80

/-- The content-line scan (sidebar_view.rs:656): each `Ok` line whose
lowercased text contains the lowercased query yields a result at line
index `idx + 1` carrying a word-padded snippet. -/
def content_line_hits (query path : RStr) (lines : List (Option RStr)) :
    List SearchResultS :=
  let query_lower := toAsciiLower query
  lines.enum.filterMap (fun p =>
    match p.2 with
    | none => none
    | some line =>
      if rstrContains (toAsciiLower line) query_lower then
        some { path := path, line := p.1 + 1, text := make_snippet line query 2,
               is_filename := false }
      else none)

/-- The non-directory branch of
`SidebarView::search_in_dir_stream_with_fs` (sidebar_view.rs:623-677)
for one entry, under the schedule where the cancellation check passes and
every `push` asks to continue: the results pushed for this entry, in
order.  `probe = none` models a failed `File::open`. -/
def process_file_entry (rules : OrbitshellRules) (query path name : RStr)
    (probe : Option FileProbe) : List SearchResultS :=
  let query_lower := toAsciiLower query
  if should_skip_file name rules then []
  else
    let filenameHits :=
      if rstrContains (toAsciiLower name) query_lower then
        [{ path := path, line := 0, text := name, is_filename := true }]
      else []
    match probe with
    | none => filenameHits
    | some fp =>
      if size_cap_hit rules fp then filenameHits
      else if null_byte_hit fp then filenameHits
      else filenameHits ++ content_line_hits query path fp.lines

/-!
## Theorems
-/

theorem TabView.insert_text_cursor_le (s : EditorState) (t : RStr) :
    (TabView.insert_text s t).cursor ≤ (TabView.insert_text s t).input.length := by
  simp [TabView.insert_text]

theorem TextEditState.insert_text_cursor_le_tes (s : EditorState) (t : RStr) :
    (TextEditState.insert_text s t).cursor ≤ (TextEditState.insert_text s t).input.length := by
  simp [TextEditState.insert_text]

theorem TabView.pop_cursor_le (s : EditorState) (h : s.cursor ≤ s.input.length) :
    (TabView.pop_char_before_cursor s).cursor ≤
      (TabView.pop_char_before_cursor s).input.length := by
  unfold TabView.pop_char_before_cursor
  split
  · exact h
  · rename_i h0
    simp only [List.length_eraseIdx]
    have hlt : s.cursor - 1 < s.input.length := by omega
    rw [if_pos hlt]
    omega

theorem TextEditState.pop_cursor_le_tes (s : EditorState) (h : s.cursor ≤ s.input.length) :
    (TextEditState.pop_char_before_cursor s).cursor ≤
      (TextEditState.pop_char_before_cursor s).input.length := by
  unfold TextEditState.pop_char_before_cursor
  split
  · exact h
  · rename_i h0
    simp only [List.length_eraseIdx]
    have hlt : s.cursor - 1 < s.input.length := by omega
    rw [if_pos hlt]
    omega

theorem TabView.applyOp_cursor_le (s : EditorState) (op : EditOp)
    (h : s.cursor ≤ s.input.length) :
    (TabView.applyOp s op).cursor ≤ (TabView.applyOp s op).input.length := by
  cases op with
  | insertText t => exact TabView.insert_text_cursor_le s t
  | deleteBackward => exact TabView.pop_cursor_le s h

theorem TextEditState.applyOp_cursor_le_tes (s : EditorState) (op : EditOp)
    (h : s.cursor ≤ s.input.length) :
    (TextEditState.applyOp s op).cursor ≤ (TextEditState.applyOp s op).input.length := by
  cases op with
  | insertText t => exact TextEditState.insert_text_cursor_le_tes s t
  | deleteBackward => exact TextEditState.pop_cursor_le_tes s h

theorem TabView.applyOps_cursor_le (ops : List EditOp) :
    ∀ s : EditorState, s.cursor ≤ s.input.length →
      (TabView.applyOps s ops).cursor ≤ (TabView.applyOps s ops).input.length := by
  induction ops with
  | nil => intro s h; exact h
  | cons op ops ih =>
    intro s h
    exact ih (TabView.applyOp s op) (TabView.applyOp_cursor_le s op h)

theorem TextEditState.applyOps_cursor_le_tes (ops : List EditOp) :
    ∀ s : EditorState, s.cursor ≤ s.input.length →
      (TextEditState.applyOps s ops).cursor ≤ (TextEditState.applyOps s ops).input.length := by
  induction ops with
  | nil => intro s h; exact h
  | cons op ops ih =>
    intro s h
    exact ih (TextEditState.applyOp s op) (TextEditState.applyOp_cursor_le_tes s op h)

/-- C2: starting from an editor state with `0 ≤ cursor ≤ len(text)` (the
lower bound is inherent: offsets are naturals) and selection bounds
inside `[0, len(text)]`, every prefix of any sequence of
`insertText`/`deleteBackward` (`pop_char_before_cursor`) calls — in both
the `TabView` and the `TextEditState` implementation — again satisfies
`0 ≤ cursor ≤ len(text)`. -/
theorem editor_cursor_stays_in_bounds (s : EditorState) (ops : List EditOp)
    (hc : s.cursor ≤ s.input.length)
    (hsel : ∀ a b, s.selection = some (a, b) →
      a ≤ s.input.length ∧ b ≤ s.input.length) :
    ∀ k,
      ((TabView.applyOps s (ops.take k)).cursor ≤
        (TabView.applyOps s (ops.take k)).input.length) ∧
      ((TextEditState.applyOps s (ops.take k)).cursor ≤
        (TextEditState.applyOps s (ops.take k)).input.length) := by
  intro k
  exact ⟨TabView.applyOps_cursor_le (ops.take k) s hc,
    TextEditState.applyOps_cursor_le_tes (ops.take k) s hc⟩

/-- Witness for C2 at a concrete state and call sequence. -/
theorem editor_cursor_stays_in_bounds_witness :
    ((⟨"ab".data, 1, none, none⟩ : EditorState).cursor ≤
      (⟨"ab".data, 1, none, none⟩ : EditorState).input.length) ∧
    ∀ k,
      ((TabView.applyOps ⟨"ab".data, 1, none, none⟩
          (([EditOp.insertText "xy".data, EditOp.deleteBackward]).take k)).cursor ≤
        (TabView.applyOps ⟨"ab".data, 1, none, none⟩
          (([EditOp.insertText "xy".data, EditOp.deleteBackward]).take k)).input.length) ∧
      ((TextEditState.applyOps ⟨"ab".data, 1, none, none⟩
          (([EditOp.insertText "xy".data, EditOp.deleteBackward]).take k)).cursor ≤
        (TextEditState.applyOps ⟨"ab".data, 1, none, none⟩
          (([EditOp.insertText "xy".data, EditOp.deleteBackward]).take k)).input.length) :=
  ⟨by decide,
    editor_cursor_stays_in_bounds ⟨"ab".data, 1, none, none⟩
      [EditOp.insertText "xy".data, EditOp.deleteBackward] (by decide)
      (by intro a b h; simp at h)⟩

theorem eraseIdx_splice (u t : List Char) (a : Char) (c : Nat) (hc : c ≤ u.length) :
    (u.take c ++ (t ++ [a]) ++ u.drop c).eraseIdx (c + t.length) =
      u.take c ++ t ++ u.drop c := by
  have hlen : (u.take c ++ t).length = c + t.length := by
    simp [List.length_take, Nat.min_eq_left hc]
  have hre : u.take c ++ (t ++ [a]) ++ u.drop c =
      (u.take c ++ t) ++ ([a] ++ u.drop c) := by
    simp
  rw [hre, List.eraseIdx_append_of_length_le (Nat.le_of_eq hlen)]
  simp [hlen]

theorem TabView.delete_selection_noop (s : EditorState)
    (h : TabView.has_selection s = false) :
    TabView.delete_selection_if_any s = (s, false) := by
  unfold TabView.delete_selection_if_any TabView.normalized_selection
  unfold TabView.has_selection at h
  match hs : s.selection with
  | none => simp [hs]
  | some (a, b) =>
    rw [hs] at h
    simp only [decide_eq_false_iff_not, Decidable.not_not] at h
    subst h
    simp [hs]

theorem TextEditState.delete_selection_noop_tes (s : EditorState)
    (h : TabView.has_selection s = false) :
    TextEditState.delete_selection_if_any s = (s, false) := by
  unfold TextEditState.delete_selection_if_any TextEditState.normalized_selection
  unfold TabView.has_selection at h
  match hs : s.selection with
  | none => simp [hs]
  | some (a, b) =>
    rw [hs] at h
    simp only [decide_eq_false_iff_not, Decidable.not_not] at h
    subst h
    simp [hs]

theorem TabView.pops_restore (t : RStr) :
    ∀ (s : EditorState) (u : List Char) (c : Nat), c ≤ u.length →
      s.input = u.take c ++ t ++ u.drop c → s.cursor = c + t.length →
      (TabView.applyOps s (List.replicate t.length EditOp.deleteBackward)).input = u ∧
      (TabView.applyOps s (List.replicate t.length EditOp.deleteBackward)).cursor = c := by
  induction t using List.reverseRecOn with
  | nil =>
    intro s u c hc hi hcur
    simp only [List.length_nil, List.replicate_zero, TabView.applyOps, List.foldl_nil]
    constructor
    · rw [hi]; simp
    · rw [hcur]; simp
  | append_singleton t0 a ih =>
    intro s u c hc hi hcur
    have hlen : (t0 ++ [a]).length = t0.length + 1 := by simp
    rw [hlen, List.replicate_succ]
    simp only [TabView.applyOps, List.foldl_cons]
    have hne : s.cursor ≠ 0 := by rw [hcur]; omega
    have hstep : TabView.applyOp s EditOp.deleteBackward =
        { s with
          input := s.input.eraseIdx (s.cursor - 1)
          cursor := s.cursor - 1
          selection_anchor := none } := by
      simp only [TabView.applyOp, TabView.pop_char_before_cursor, if_neg hne]
    rw [hstep]
    have h1 : s.input.eraseIdx (s.cursor - 1) = u.take c ++ t0 ++ u.drop c := by
      rw [hi, hcur]
      have : c + (t0 ++ [a]).length - 1 = c + t0.length := by simp
      rw [this]
      exact eraseIdx_splice u t0 a c hc
    have h2 : s.cursor - 1 = c + t0.length := by rw [hcur]; simp
    exact ih _ u c hc h1 h2

theorem TextEditState.pops_restore_tes (t : RStr) :
    ∀ (s : EditorState) (u : List Char) (c : Nat), c ≤ u.length →
      s.input = u.take c ++ t ++ u.drop c → s.cursor = c + t.length →
      (TextEditState.applyOps s (List.replicate t.length EditOp.deleteBackward)).input = u ∧
      (TextEditState.applyOps s (List.replicate t.length EditOp.deleteBackward)).cursor = c := by
  induction t using List.reverseRecOn with
  | nil =>
    intro s u c hc hi hcur
    simp only [List.length_nil, List.replicate_zero, TextEditState.applyOps, List.foldl_nil]
    constructor
    · rw [hi]; simp
    · rw [hcur]; simp
  | append_singleton t0 a ih =>
    intro s u c hc hi hcur
    have hlen : (t0 ++ [a]).length = t0.length + 1 := by simp
    rw [hlen, List.replicate_succ]
    simp only [TextEditState.applyOps, List.foldl_cons]
    have hne : s.cursor ≠ 0 := by rw [hcur]; omega
    have hstep : TextEditState.applyOp s EditOp.deleteBackward =
        { input := s.input.eraseIdx (s.cursor - 1)
          cursor := s.cursor - 1
          selection := none
          selection_anchor := none } := by
      simp only [TextEditState.applyOp, TextEditState.pop_char_before_cursor, if_neg hne]
    rw [hstep]
    have h1 : s.input.eraseIdx (s.cursor - 1) = u.take c ++ t0 ++ u.drop c := by
      rw [hi, hcur]
      have : c + (t0 ++ [a]).length - 1 = c + t0.length := by simp
      rw [this]
      exact eraseIdx_splice u t0 a c hc
    have h2 : s.cursor - 1 = c + t0.length := by rw [hcur]; simp
    exact ih _ u c hc h1 h2

theorem TabView.insert_splice (s : EditorState) (t : RStr)
    (hsel : TabView.has_selection s = false)
    (hc : s.cursor ≤ s.input.length) :
    (TabView.insert_text s t).input =
      s.input.take s.cursor ++ t ++ s.input.drop s.cursor ∧
    (TabView.insert_text s t).cursor = s.cursor + t.length := by
  have hds : (TabView.delete_selection_if_any s).1 = s := by
    rw [TabView.delete_selection_noop s hsel]
  have hlen : (s.input.take s.cursor ++ t ++ s.input.drop s.cursor).length =
      s.input.length + t.length := by
    simp [Nat.min_eq_left hc]
    omega
  constructor
  · simp [TabView.insert_text, hds]
  · simp only [TabView.insert_text, hds, hlen]
    omega

theorem TextEditState.insert_splice_tes (s : EditorState) (t : RStr)
    (hsel : TabView.has_selection s = false)
    (hc : s.cursor ≤ s.input.length) :
    (TextEditState.insert_text s t).input =
      s.input.take s.cursor ++ t ++ s.input.drop s.cursor ∧
    (TextEditState.insert_text s t).cursor = s.cursor + t.length := by
  have hds : (TextEditState.delete_selection_if_any s).1 = s := by
    rw [TextEditState.delete_selection_noop_tes s hsel]
  have hlen : (s.input.take s.cursor ++ t ++ s.input.drop s.cursor).length =
      s.input.length + t.length := by
    simp [Nat.min_eq_left hc]
    omega
  constructor
  · simp [TextEditState.insert_text, hds]
  · simp only [TextEditState.insert_text, hds, hlen]
    omega

/-- C8: from a state with no active selection and `cursor ≤ len(text)`,
`insertText t` followed by `len(t)` calls of `deleteBackward`
(`pop_char_before_cursor`) restores the original text and cursor, in both
the `TabView` and the `TextEditState` implementation.  (The two
implementations share the `has_selection` test; `TabView`'s is used as
the hypothesis.) -/
theorem editor_insert_delete_roundtrip (s : EditorState) (t : RStr)
    (hsel : TabView.has_selection s = false)
    (hc : s.cursor ≤ s.input.length) :
    ((TabView.applyOps s
        (EditOp.insertText t :: List.replicate t.length EditOp.deleteBackward)).input =
          s.input ∧
      (TabView.applyOps s
        (EditOp.insertText t :: List.replicate t.length EditOp.deleteBackward)).cursor =
          s.cursor) ∧
    ((TextEditState.applyOps s
        (EditOp.insertText t :: List.replicate t.length EditOp.deleteBackward)).input =
          s.input ∧
      (TextEditState.applyOps s
        (EditOp.insertText t :: List.replicate t.length EditOp.deleteBackward)).cursor =
          s.cursor) := by
  constructor
  · have hfold : TabView.applyOps s
        (EditOp.insertText t :: List.replicate t.length EditOp.deleteBackward) =
        TabView.applyOps (TabView.insert_text s t)
          (List.replicate t.length EditOp.deleteBackward) := rfl
    rw [hfold]
    exact TabView.pops_restore t (TabView.insert_text s t) s.input s.cursor hc
      (TabView.insert_splice s t hsel hc).1 (TabView.insert_splice s t hsel hc).2
  · have hfold : TextEditState.applyOps s
        (EditOp.insertText t :: List.replicate t.length EditOp.deleteBackward) =
        TextEditState.applyOps (TextEditState.insert_text s t)
          (List.replicate t.length EditOp.deleteBackward) := rfl
    rw [hfold]
    exact TextEditState.pops_restore_tes t (TextEditState.insert_text s t) s.input s.cursor hc
      (TextEditState.insert_splice_tes s t hsel hc).1 (TextEditState.insert_splice_tes s t hsel hc).2

/-- Witness for C8 at a concrete state and insertion. -/
theorem editor_insert_delete_roundtrip_witness :
    (TabView.has_selection ⟨"ab".data, 1, none, none⟩ = false) ∧
    ((⟨"ab".data, 1, none, none⟩ : EditorState).cursor ≤
      (⟨"ab".data, 1, none, none⟩ : EditorState).input.length) ∧
    (((TabView.applyOps ⟨"ab".data, 1, none, none⟩
        (EditOp.insertText "xy".data ::
          List.replicate "xy".data.length EditOp.deleteBackward)).input = "ab".data ∧
      (TabView.applyOps ⟨"ab".data, 1, none, none⟩
        (EditOp.insertText "xy".data ::
          List.replicate "xy".data.length EditOp.deleteBackward)).cursor = 1) ∧
     ((TextEditState.applyOps ⟨"ab".data, 1, none, none⟩
        (EditOp.insertText "xy".data ::
          List.replicate "xy".data.length EditOp.deleteBackward)).input = "ab".data ∧
      (TextEditState.applyOps ⟨"ab".data, 1, none, none⟩
        (EditOp.insertText "xy".data ::
          List.replicate "xy".data.length EditOp.deleteBackward)).cursor = 1)) :=
  ⟨by decide, by decide,
    editor_insert_delete_roundtrip ⟨"ab".data, 1, none, none⟩ "xy".data
      (by decide) (by decide)⟩

/-- C3 (evaluating the code at the failing input): on ESC followed by a
scalar that is neither `[` nor `]`, `strip_ansi` discards only the ESC —
the `continue` in the wildcard arm never consumes the peeked scalar, so
`"\x1bXhi"` sanitizes to `"Xhi"`, not to `"hi"` as the spec (and the
code's own comment) require. -/
theorem strip_ansi_keeps_scalar_after_esc :
    strip_ansi ('\x1b' :: 'X' :: 'h' :: 'i' :: []) = 'X' :: 'h' :: 'i' :: [] ∧
    strip_ansi ('\x1b' :: 'X' :: 'h' :: 'i' :: []) ≠ 'h' :: 'i' :: [] := by
  constructor
  · decide
  · decide

/-- C9: with a positive cap and a buffer within its cap, `push_line`
keeps the buffer within the cap, evicting the oldest line first when the
buffer is full; pushing `"a"`, `"b"`, `"c"`, `"d"` through a cap-3 buffer
leaves exactly `["b", "c", "d"]`. -/
theorem scrollback_push_line_capped (b : TerminalBuffer) (l : RStr)
    (hmax : 0 < b.max_scrollback) (hlen : b.lines.length ≤ b.max_scrollback) :
    (b.push_line l).lines.length ≤ b.max_scrollback ∧
    (b.lines.length = b.max_scrollback →
      (b.push_line l).lines = b.lines.drop 1 ++ [l]) ∧
    ((((TerminalBuffer.new 3).push_line "a".data).push_line
        "b".data).push_line "c".data).push_line "d".data =
      { lines := ["b".data, "c".data, "d".data], max_scrollback := 3 } := by
  refine ⟨?_, ?_, by decide⟩
  · unfold TerminalBuffer.push_line
    by_cases h : b.max_scrollback ≤ b.lines.length
    · rw [if_pos h]
      simp only [List.length_append, List.length_drop, List.length_cons,
        List.length_nil]
      omega
    · rw [if_neg h]
      simp only [List.length_append, List.length_cons, List.length_nil]
      omega
  · intro he
    unfold TerminalBuffer.push_line
    rw [if_pos (Nat.le_of_eq he.symm)]

/-- Witness for C9 at a concrete buffer. -/
theorem scrollback_push_line_capped_witness :
    (0 < (TerminalBuffer.mk ["x".data] 3).max_scrollback) ∧
    ((TerminalBuffer.mk ["x".data] 3).lines.length ≤
      (TerminalBuffer.mk ["x".data] 3).max_scrollback) ∧
    (((TerminalBuffer.mk ["x".data] 3).push_line "y".data).lines.length ≤
        (TerminalBuffer.mk ["x".data] 3).max_scrollback ∧
      ((TerminalBuffer.mk ["x".data] 3).lines.length =
          (TerminalBuffer.mk ["x".data] 3).max_scrollback →
        ((TerminalBuffer.mk ["x".data] 3).push_line "y".data).lines =
          (TerminalBuffer.mk ["x".data] 3).lines.drop 1 ++ ["y".data]) ∧
      ((((TerminalBuffer.new 3).push_line "a".data).push_line
          "b".data).push_line "c".data).push_line "d".data =
        { lines := ["b".data, "c".data, "d".data], max_scrollback := 3 }) :=
  ⟨by decide, by decide,
    scrollback_push_line_capped (TerminalBuffer.mk ["x".data] 3) "y".data
      (by decide) (by decide)⟩

/-- C7: `push_history` is a no-op when the command equals the front
entry; otherwise it prepends, evicting from the back only past capacity
2000; pushing `"ls"`, `"ls"`, `"pwd"` into an empty store yields
`["pwd", "ls"]`. -/
theorem push_history_behavior (h : List RStr) (c : RStr) :
    (h.head? = some c → push_history h c = h) ∧
    (h.head? ≠ some c → h.length < 2000 → push_history h c = c :: h) ∧
    (h.head? ≠ some c → 2000 ≤ h.length → push_history h c = (c :: h).dropLast) ∧
    push_history (push_history (push_history [] "ls".data) "ls".data) "pwd".data =
      ["pwd".data, "ls".data] := by
  refine ⟨?_, ?_, ?_, by decide⟩
  · intro he
    unfold push_history
    rw [if_pos he]
  · intro hne hlen
    unfold push_history
    rw [if_neg hne]
    simp only [List.length_cons]
    rw [if_neg (by omega)]
  · intro hne hlen
    unfold push_history
    rw [if_neg hne]
    simp only [List.length_cons]
    rw [if_pos (by omega)]

/-- Witness for C7 at a concrete store. -/
theorem push_history_behavior_witness :
    (["a".data].head? ≠ some "b".data) ∧ (["a".data] : List RStr).length < 2000 ∧
    push_history ["a".data] "b".data = ["b".data, "a".data] :=
  ⟨by decide, by decide,
    (push_history_behavior ["a".data] "b".data).2.1 (by decide) (by decide)⟩

/-- C4 (amended): a push never grows the store past
`max (previous length) 2000` — in particular a store of at most 2000
entries stays at most 2000 after every push. -/
theorem push_history_length_bound (h : List RStr) (c : RStr) :
    (h.length ≤ 2000 → (push_history h c).length ≤ 2000) ∧
    (push_history h c).length ≤ max h.length 2000 := by
  unfold push_history
  by_cases he : h.head? = some c
  · rw [if_pos he]
    exact ⟨fun hl => hl, Nat.le_max_left _ _⟩
  · rw [if_neg he]
    simp only [List.length_cons]
    by_cases h2 : 2000 < h.length + 1
    · rw [if_pos h2]
      simp only [List.length_dropLast, List.length_cons]
      constructor
      · intro hl
        omega
      · omega
    · rw [if_neg h2]
      simp only [List.length_cons]
      constructor
      · intro hl
        omega
      · omega

/-- Witness for C4's amended push bound at a concrete store. -/
theorem push_history_length_bound_witness :
    ((["a".data] : List RStr).length ≤ 2000) ∧
    ((push_history ["a".data] "b".data).length ≤ 2000 ∧
      (push_history ["a".data] "b".data).length ≤ max (["a".data] : List RStr).length 2000) :=
  ⟨by decide,
    ⟨(push_history_length_bound ["a".data] "b".data).1 (by decide),
      (push_history_length_bound ["a".data] "b".data).2⟩⟩

theorem foldl_historyInsert_length (ls : List RStr) :
    ∀ hs : List RStr × List RStr, ls.Nodup →
      (∀ l ∈ ls, hs.2.contains l = false) →
      (ls.foldl historyInsert hs).1.length = hs.1.length + ls.length := by
  induction ls with
  | nil => intro hs _ _; simp
  | cons a ls ih =>
    intro hs hnd hni
    simp only [List.foldl_cons]
    have ha : hs.2.contains a = false := hni a (List.mem_cons_self a ls)
    have hstep : historyInsert hs a = (a :: hs.1, a :: hs.2) := by
      unfold historyInsert
      rw [ha]
      simp
    rw [hstep]
    have hrest : ∀ l ∈ ls, ((a :: hs.1, a :: hs.2) : List RStr × List RStr).2.contains l = false := by
      intro l hl
      have hne : l ≠ a := by
        intro hla
        exact (List.nodup_cons.mp hnd).1 (hla ▸ hl)
      simp only [List.contains_cons]
      rw [Bool.or_eq_false_iff]
      constructor
      · simp [hne]
      · exact hni l (List.mem_cons_of_mem a hl)
    have := ih (a :: hs.1, a :: hs.2) (List.nodup_cons.mp hnd).2 hrest
    simp only [this, List.length_cons]
    omega

theorem rustTrim_replicate_a (n : Nat) :
    rustTrim (List.replicate (n + 1) 'a') = List.replicate (n + 1) 'a' := by
  have hws : Char.isWhitespace 'a' = false := by decide
  have h1 : List.dropWhile Char.isWhitespace (List.replicate (n + 1) 'a') =
      List.replicate (n + 1) 'a' := by
    rw [List.replicate_succ, List.dropWhile_cons, hws]
    simp
  unfold rustTrim
  rw [h1, List.reverse_replicate, h1, List.reverse_replicate]

/-- `load_plain_history` on a present file is the plain loader. -/
theorem load_plain_history_some (lines : List RStr) (hs : List RStr × List RStr) :
    load_plain_history (some lines) hs = load_history_from_file lines hs := rfl

theorem load_zsh_history_none (hs : List RStr × List RStr) :
    load_zsh_history none hs = hs := rfl

theorem load_fish_history_none (hs : List RStr × List RStr) :
    load_fish_history none hs = hs := rfl

theorem load_plain_history_none (hs : List RStr × List RStr) :
    load_plain_history none hs = hs := rfl

/-- `load_initial_history` with only the application log present reduces
to the plain loader on that log. -/
theorem load_initial_history_app_only (lines : List RStr) :
    load_initial_history (some lines) none none none =
      (load_history_from_file lines ([], [])).1 := rfl

/-- `load_history_from_file` unfolded (symbolic arguments). -/
theorem load_history_from_file_eq (lines : List RStr) (hs : List RStr × List RStr) :
    load_history_from_file lines hs =
      ((lines.filter (fun l => !(rustTrim l).isEmpty)).reverse).foldl historyInsert hs := rfl

/-- C4 counterexample: an application log of 2001 distinct non-blank
lines merges to a 2001-entry store — the startup merge applies no cap. -/
theorem load_initial_history_uncapped :
    2000 < (load_initial_history
      (some ((List.range 2001).map (fun n => List.replicate (n + 1) 'a')))
      none none none).length := by
  rw [load_initial_history_app_only, load_history_from_file_eq]
  have hfil : ((List.range 2001).map (fun n => List.replicate (n + 1) 'a')).filter
      (fun l => !(rustTrim l).isEmpty) =
      (List.range 2001).map (fun n => List.replicate (n + 1) 'a') := by
    rw [List.filter_eq_self]
    intro a ha
    rcases List.mem_map.mp ha with ⟨n, _, hn⟩
    rw [← hn, rustTrim_replicate_a n]
    simp [List.replicate_succ]
  rw [hfil]
  have hinj : Function.Injective (fun n => List.replicate (n + 1) 'a') := by
    intro m n hmn
    have := congrArg List.length hmn
    simp only [List.length_replicate] at this
    omega
  have hnd : ((List.range 2001).map (fun n => List.replicate (n + 1) 'a')).reverse.Nodup := by
    rw [List.nodup_reverse]
    exact (List.nodup_range 2001).map hinj
  have hlen := foldl_historyInsert_length
    ((List.range 2001).map (fun n => List.replicate (n + 1) 'a')).reverse
    ([], []) hnd (by intro l _; rfl)
  rw [hlen]
  simp only [List.length_reverse, List.length_map, List.length_range, List.length_nil]
  omega

/-- The seen-set contents after one dedupe pass (specification side). -/
def seenAfter (seen : List RStr) : List SuggestionItem → List RStr
  | [] => seen
  | x :: xs => if x.insert ∈ seen then seenAfter seen xs else seenAfter (x.insert :: seen) xs

theorem dedupePass_eq (items : List SuggestionItem) :
    ∀ (seen : List RStr) (out : List SuggestionItem),
      dedupePass (seen, out) items =
        (seenAfter seen items, out ++ keepFirstByInsert seen items) := by
  induction items with
  | nil => intro seen out; simp [dedupePass, seenAfter, keepFirstByInsert]
  | cons x xs ih =>
    intro seen out
    by_cases hm : x.insert ∈ seen
    · have hc : seen.contains x.insert = true := List.elem_iff.mpr hm
      have hstep : dedupePass (seen, out) (x :: xs) = dedupePass (seen, out) xs := by
        simp only [dedupePass, List.foldl_cons, hc, if_true]
      rw [hstep, ih seen out]
      simp only [seenAfter, keepFirstByInsert, if_pos hm]
    · have hc : seen.contains x.insert = false := by simp [List.elem_iff, hm]
      have hstep : dedupePass (seen, out) (x :: xs) =
          dedupePass (x.insert :: seen, out ++ [x]) xs := by
        simp only [dedupePass, List.foldl_cons, hc]
        simp
      rw [hstep, ih (x.insert :: seen) (out ++ [x])]
      simp only [seenAfter, keepFirstByInsert, if_neg hm]
      simp

theorem keepFirstByInsert_append (A B : List SuggestionItem) :
    ∀ seen, keepFirstByInsert seen (A ++ B) =
      keepFirstByInsert seen A ++ keepFirstByInsert (seenAfter seen A) B := by
  induction A with
  | nil => intro seen; simp [keepFirstByInsert, seenAfter]
  | cons x xs ih =>
    intro seen
    by_cases hm : x.insert ∈ seen
    · simp only [List.cons_append, keepFirstByInsert, if_pos hm, seenAfter]
      exact ih seen
    · simp only [List.cons_append, keepFirstByInsert, if_neg hm, seenAfter]
      exact congrArg (List.cons x) (ih (x.insert :: seen))

theorem seenAfter_append (A B : List SuggestionItem) :
    ∀ seen, seenAfter seen (A ++ B) = seenAfter (seenAfter seen A) B := by
  induction A with
  | nil => intro seen; simp [seenAfter]
  | cons x xs ih =>
    intro seen
    by_cases hm : x.insert ∈ seen
    · simp only [List.cons_append, seenAfter, if_pos hm]
      exact ih seen
    · simp only [List.cons_append, seenAfter, if_neg hm]
      exact ih (x.insert :: seen)

theorem keepFirstByInsert_sublist (l : List SuggestionItem) :
    ∀ seen, (keepFirstByInsert seen l).Sublist l := by
  induction l with
  | nil => intro seen; simp [keepFirstByInsert]
  | cons x xs ih =>
    intro seen
    by_cases hm : x.insert ∈ seen
    · simp only [keepFirstByInsert, if_pos hm]
      exact (ih seen).cons x
    · simp only [keepFirstByInsert, if_neg hm]
      exact (ih (x.insert :: seen)).cons₂ x

theorem keepFirstByInsert_fresh (l : List SuggestionItem) :
    ∀ seen, ∀ x ∈ keepFirstByInsert seen l, x.insert ∉ seen := by
  induction l with
  | nil => intro seen x hx; simp [keepFirstByInsert] at hx
  | cons a xs ih =>
    intro seen x hx
    by_cases hm : a.insert ∈ seen
    · rw [keepFirstByInsert, if_pos hm] at hx
      exact ih seen x hx
    · rw [keepFirstByInsert, if_neg hm] at hx
      rcases List.mem_cons.mp hx with hxa | hxs
      · rw [hxa]; exact hm
      · intro hxseen
        exact ih (a.insert :: seen) x hxs (List.mem_cons_of_mem _ hxseen)

theorem keepFirstByInsert_nodup (l : List SuggestionItem) :
    ∀ seen, ((keepFirstByInsert seen l).map (fun x => x.insert)).Nodup := by
  induction l with
  | nil => intro seen; simp [keepFirstByInsert]
  | cons a xs ih =>
    intro seen
    by_cases hm : a.insert ∈ seen
    · rw [keepFirstByInsert, if_pos hm]
      exact ih seen
    · rw [keepFirstByInsert, if_neg hm]
      simp only [List.map_cons, List.nodup_cons]
      constructor
      · intro hmem
        rcases List.mem_map.mp hmem with ⟨y, hy, hye⟩
        have := keepFirstByInsert_fresh xs (a.insert :: seen) y hy
        exact this (hye ▸ List.mem_cons_self _ _)
      · exact ih (a.insert :: seen)

theorem displayLe_trans (a b c : SuggestionItem) :
    displayLe a b = true → displayLe b c = true → displayLe a c = true := by
  unfold displayLe
  intro h1 h2
  exact decide_eq_true (le_trans (of_decide_eq_true h1) (of_decide_eq_true h2))

theorem displayLe_total (a b : SuggestionItem) :
    (displayLe a b || displayLe b a) = true := by
  unfold displayLe
  rcases le_total a.display b.display with h | h
  · simp [h]
  · simp [h]

theorem sortByDisplay_sorted (items : List SuggestionItem) :
    (sortByDisplay items).Pairwise (fun a b => displayLe a b = true) :=
  List.sorted_mergeSort displayLe_trans displayLe_total items

/-- C6: for every combination of history, path and command candidate
lists, the sort-then-dedupe tail of `refresh_suggestions` yields the
history section first, then the path section, then the command section
(each section a sublist of its sorted source, hence Path and Command
sorted alphabetically by display string), with `insert` texts
deduplicated globally, first occurrence winning (`keepFirstByInsert`). -/
theorem refresh_suggestions_ordering (h p c : List SuggestionItem) :
    ∃ H P K : List SuggestionItem,
      refreshCombine h p c = H ++ P ++ K ∧
      H.Sublist h ∧ P.Sublist (sortByDisplay p) ∧ K.Sublist (sortByDisplay c) ∧
      P.Pairwise (fun a b => displayLe a b = true) ∧
      K.Pairwise (fun a b => displayLe a b = true) ∧
      ((refreshCombine h p c).map (fun x => x.insert)).Nodup ∧
      refreshCombine h p c =
        keepFirstByInsert [] (h ++ sortByDisplay p ++ sortByDisplay c) := by
  have hmain : refreshCombine h p c =
      keepFirstByInsert [] h ++
        keepFirstByInsert (seenAfter [] h) (sortByDisplay p) ++
        keepFirstByInsert (seenAfter (seenAfter [] h) (sortByDisplay p))
          (sortByDisplay c) := by
    unfold refreshCombine dedupe_suggestions
    rw [dedupePass_eq h [] [], dedupePass_eq (sortByDisplay p), dedupePass_eq (sortByDisplay c)]
    simp
  have hflat : refreshCombine h p c =
      keepFirstByInsert [] (h ++ sortByDisplay p ++ sortByDisplay c) := by
    rw [hmain,
      keepFirstByInsert_append (h ++ sortByDisplay p) (sortByDisplay c) [],
      keepFirstByInsert_append h (sortByDisplay p) [],
      seenAfter_append h (sortByDisplay p) []]
  refine ⟨keepFirstByInsert [] h,
    keepFirstByInsert (seenAfter [] h) (sortByDisplay p),
    keepFirstByInsert (seenAfter (seenAfter [] h) (sortByDisplay p)) (sortByDisplay c),
    hmain, keepFirstByInsert_sublist h [], keepFirstByInsert_sublist _ _,
    keepFirstByInsert_sublist _ _, ?_, ?_, ?_, hflat⟩
  · exact List.Pairwise.sublist (keepFirstByInsert_sublist _ _) (sortByDisplay_sorted p)
  · exact List.Pairwise.sublist (keepFirstByInsert_sublist _ _) (sortByDisplay_sorted c)
  · rw [hflat]
    exact keepFirstByInsert_nodup _ []

theorem apply_message_generation (s : SidebarSearch) (m : SearchMessageS) :
    (apply_message s m).search_generation = s.search_generation := by
  cases m with
  | batch g rs =>
    simp only [apply_message]
    split
    · rfl
    · split
      · rfl
      · rfl
  | done g =>
    simp only [apply_message]
    split
    · rfl
    · rfl

theorem apply_messages_generation (ms : List SearchMessageS) :
    ∀ s : SidebarSearch, (apply_messages s ms).search_generation = s.search_generation := by
  induction ms with
  | nil => intro s; rfl
  | cons m ms ih =>
    intro s
    show (apply_messages (apply_message s m) ms).search_generation = _
    rw [ih (apply_message s m), apply_message_generation]

theorem apply_message_stale_batch (s : SidebarSearch) (g : Nat) (rs : List SearchResultS)
    (h : s.search_generation ≠ g) : apply_message s (.batch g rs) = s := by
  simp only [apply_message]
  rw [if_pos h]

theorem apply_message_stale_done (s : SidebarSearch) (g : Nat)
    (h : s.search_generation ≠ g) : apply_message s (.done g) = s := by
  simp only [apply_message]
  rw [if_neg h]

theorem run_search_generation (s : SidebarSearch) (q : RStr) :
    (run_search s q).search_generation = (s.search_generation + 1) % U64MOD := by
  simp only [run_search]
  split <;> rfl

theorem succ_mod_u64_ne (g : Nat) (h : g < U64MOD) : (g + 1) % U64MOD ≠ g := by
  have hM : U64MOD = 18446744073709551616 := by norm_num [U64MOD]
  rw [hM] at h ⊢
  by_cases h1 : g + 1 < 18446744073709551616
  · rw [Nat.mod_eq_of_lt h1]
    omega
  · have h2 : g + 1 = 18446744073709551616 := by omega
    rw [h2, Nat.mod_self]
    omega

/-- C1: after a scan with generation `g1` starts and — with any batches
and done messages drained in between — a second scan starts with
generation `g2`, the generations differ; draining any further messages
leaves the active generation at `g2`, a `Batch` tagged `g1` is never
applied (the consumer applies a `Batch(g, results)` only when `g` equals
its active generation), and a `Done` carrying any generation other than
`g2` is not applied either, so the only `Done` the consumer can apply is
the one carrying `g2`. -/
theorem search_generation_cancellation
    (s0 : SidebarSearch) (q1 q2 : RStr) (ms1 ms2 : List SearchMessageS)
    (rs : List SearchResultS) (g : Nat) :
    (run_search (apply_messages (run_search s0 q1) ms1) q2).search_generation ≠
      (run_search s0 q1).search_generation ∧
    (apply_messages (run_search (apply_messages (run_search s0 q1) ms1) q2)
        ms2).search_generation =
      (run_search (apply_messages (run_search s0 q1) ms1) q2).search_generation ∧
    apply_message
        (apply_messages (run_search (apply_messages (run_search s0 q1) ms1) q2) ms2)
        (.batch (run_search s0 q1).search_generation rs) =
      apply_messages (run_search (apply_messages (run_search s0 q1) ms1) q2) ms2 ∧
    (g ≠ (run_search (apply_messages (run_search s0 q1) ms1) q2).search_generation →
      apply_message
          (apply_messages (run_search (apply_messages (run_search s0 q1) ms1) q2) ms2)
          (.done g) =
        apply_messages (run_search (apply_messages (run_search s0 q1) ms1) q2) ms2) := by
  have hg1 : (run_search s0 q1).search_generation = (s0.search_generation + 1) % U64MOD :=
    run_search_generation s0 q1
  have hg1lt : (run_search s0 q1).search_generation < U64MOD := by
    rw [hg1]
    apply Nat.mod_lt
    unfold U64MOD
    positivity
  have hms1 : (apply_messages (run_search s0 q1) ms1).search_generation =
      (run_search s0 q1).search_generation := apply_messages_generation ms1 _
  have hg2 : (run_search (apply_messages (run_search s0 q1) ms1) q2).search_generation =
      ((run_search s0 q1).search_generation + 1) % U64MOD := by
    rw [run_search_generation, hms1]
  have hne : (run_search (apply_messages (run_search s0 q1) ms1) q2).search_generation ≠
      (run_search s0 q1).search_generation := by
    rw [hg2]
    exact succ_mod_u64_ne _ hg1lt
  have hms2 : (apply_messages (run_search (apply_messages (run_search s0 q1) ms1) q2)
      ms2).search_generation =
      (run_search (apply_messages (run_search s0 q1) ms1) q2).search_generation :=
    apply_messages_generation ms2 _
  refine ⟨hne, hms2, ?_, ?_⟩
  · apply apply_message_stale_batch
    rw [hms2]
    exact hne
  · intro hg
    apply apply_message_stale_done
    rw [hms2]
    exact fun he => hg he.symm

/-- Witness for C1 at a concrete consumer state and message interleaving. -/
theorem search_generation_cancellation_witness :
    (run_search (apply_messages (run_search ⟨0, 0, [], false, [], false, 10⟩ "a".data) [])
        "b".data).search_generation ≠
      (run_search ⟨0, 0, [], false, [], false, 10⟩ "a".data).search_generation ∧
    (apply_messages
        (run_search (apply_messages (run_search ⟨0, 0, [], false, [], false, 10⟩ "a".data) [])
          "b".data) []).search_generation =
      (run_search (apply_messages (run_search ⟨0, 0, [], false, [], false, 10⟩ "a".data) [])
        "b".data).search_generation ∧
    apply_message
        (apply_messages
          (run_search (apply_messages (run_search ⟨0, 0, [], false, [], false, 10⟩ "a".data) [])
            "b".data) [])
        (.batch (run_search ⟨0, 0, [], false, [], false, 10⟩ "a".data).search_generation
          [⟨"p".data, 0, "m".data, true⟩]) =
      apply_messages
        (run_search (apply_messages (run_search ⟨0, 0, [], false, [], false, 10⟩ "a".data) [])
          "b".data) [] ∧
    apply_message
        (apply_messages
          (run_search (apply_messages (run_search ⟨0, 0, [], false, [], false, 10⟩ "a".data) [])
            "b".data) [])
        (.done 7) =
      apply_messages
        (run_search (apply_messages (run_search ⟨0, 0, [], false, [], false, 10⟩ "a".data) [])
          "b".data) [] :=
  ⟨(search_generation_cancellation ⟨0, 0, [], false, [], false, 10⟩ "a".data "b".data [] []
      [⟨"p".data, 0, "m".data, true⟩] 7).1,
    (search_generation_cancellation ⟨0, 0, [], false, [], false, 10⟩ "a".data "b".data [] []
      [⟨"p".data, 0, "m".data, true⟩] 7).2.1,
    (search_generation_cancellation ⟨0, 0, [], false, [], false, 10⟩ "a".data "b".data [] []
      [⟨"p".data, 0, "m".data, true⟩] 7).2.2.1,
    (search_generation_cancellation ⟨0, 0, [], false, [], false, 10⟩ "a".data "b".data [] []
      [⟨"p".data, 0, "m".data, true⟩] 7).2.2.2 (by decide)⟩

/-- C5 counterexample: submit the command `">>"`.  Its echo is swallowed
and the expectation cleared, but a later output line with the same text
is *not* appended normally — it is swallowed by the `">>"` continuation
check — so after two `">>"` output lines the command's block still has no
output. -/
theorem echo_skip_counterexample :
    (append_output_new_line
        (append_output_new_line
          (run_command ⟨[], 0, none, none, [], none, [], true, false, "~".data, none⟩
            ">>".data)
          ">>".data)
        ">>".data).blocks.map (fun b => b.output_lines) = [[]] ∧
    (append_output_new_line
        (run_command ⟨[], 0, none, none, [], none, [], true, false, "~".data, none⟩
          ">>".data)
        ">>".data).pending_echo = none := by
  constructor
  · decide
  · decide

theorem should_skip_echo_hit (s : TabState) (l e : RStr)
    (hp : s.pending_echo = some e) (hl : rustTrim l = e) :
    should_skip_output_line s l = (true, { s with pending_echo := none }) := by
  simp only [should_skip_output_line, hp, hl]
  simp

theorem should_skip_plain_line (s : TabState) (l : RStr)
    (hp : s.pending_echo = none)
    (hne : rustTrim l ≠ ">>".data)
    (hnp : is_prompt_line (rustTrim l) = false) :
    should_skip_output_line s l = (false, s) := by
  simp only [should_skip_output_line, hp]
  rw [if_neg (by simp), if_neg hne, if_neg (by simp [hnp])]

/-- C5 (amended): after a command is submitted the pending echo is armed
with its trimmed text; the first output line whose trimmed text equals it
is discarded — appended to no block — and the expectation is cleared; a
later line with the same text is then appended normally *provided* that
text is not itself skippable (the `">>"` continuation marker or a prompt
line). -/
theorem echo_skip_amended (s s' : TabState) (c e l l2 : RStr)
    (hc : rustTrim c = e) (hce : e ≠ [])
    (hp : s.pending_echo = some e)
    (hl : rustTrim l = e) (hl2 : rustTrim l2 = e)
    (hne : e ≠ ">>".data) (hnp : is_prompt_line e = false) :
    (run_command s' c).pending_echo = some e ∧
    append_output_new_line s l = { s with pending_echo := none } ∧
    (append_output_new_line { s with pending_echo := none } l2).blocks =
      modifyLast (ensure_push_block s.blocks) (fun b =>
        { b with
          has_error := b.has_error || is_error_line l2
          output_lines := b.output_lines ++ [l2] }) := by
  refine ⟨?_, ?_, ?_⟩
  · simp only [run_command, hc]
    rw [if_neg (by simp [hce])]
  · have hskip := should_skip_echo_hit s l e hp hl
    simp only [append_output_new_line, hskip]
    simp
  · have hplain := should_skip_plain_line { s with pending_echo := none } l2 rfl
      (by rw [hl2]; exact hne) (by rw [hl2]; exact hnp)
    simp only [append_output_new_line, hplain]
    simp

/-- Witness for the amended C5 at a concrete state and line. -/
theorem echo_skip_amended_witness :
    (rustTrim " echo hi ".data = "echo hi".data) ∧
    ((⟨[], 0, none, none, [], some "echo hi".data, [], true, false, "~".data, none⟩ :
        TabState).pending_echo = some "echo hi".data) ∧
    ((run_command ⟨[], 0, none, none, [], none, [], true, false, "~".data, none⟩
        "echo hi".data).pending_echo = some "echo hi".data ∧
      append_output_new_line
          ⟨[], 0, none, none, [], some "echo hi".data, [], true, false, "~".data, none⟩
          " echo hi ".data =
        { (⟨[], 0, none, none, [], some "echo hi".data, [], true, false, "~".data, none⟩ :
            TabState) with pending_echo := none } ∧
      (append_output_new_line
          { (⟨[], 0, none, none, [], some "echo hi".data, [], true, false, "~".data, none⟩ :
              TabState) with pending_echo := none }
          "echo hi".data).blocks =
        modifyLast
          (ensure_push_block
            (⟨[], 0, none, none, [], some "echo hi".data, [], true, false, "~".data, none⟩ :
              TabState).blocks)
          (fun b =>
            { b with
              has_error := b.has_error || is_error_line "echo hi".data
              output_lines := b.output_lines ++ ["echo hi".data] })) :=
  ⟨by decide, by decide,
    echo_skip_amended
      ⟨[], 0, none, none, [], some "echo hi".data, [], true, false, "~".data, none⟩
      ⟨[], 0, none, none, [], none, [], true, false, "~".data, none⟩
      "echo hi".data "echo hi".data " echo hi ".data "echo hi".data
      (by decide) (by decide) (by decide) (by decide) (by decide) (by decide) (by decide)⟩

/-- C10: for a directory entry that the skip-file rule keeps and whose
lowercased name contains the lowercased query, the filename result
(`line = 0`, `is_filename = true`) is emitted first regardless of the
file's size or contents; and when the size cap or the null-byte probe
fires, it is the *only* result — those two checks suppress only the
content-line scan. -/
theorem filename_match_precedes_size_and_binary_checks
    (rules : OrbitshellRules) (query path name : RStr) (probe : Option FileProbe)
    (hskip : should_skip_file name rules = false)
    (hname : rstrContains (toAsciiLower name) (toAsciiLower query) = true) :
    (∃ rest, process_file_entry rules query path name probe =
      { path := path, line := 0, text := name, is_filename := true } :: rest) ∧
    (∀ fp, probe = some fp → (size_cap_hit rules fp || null_byte_hit fp) = true →
      process_file_entry rules query path name probe =
        [{ path := path, line := 0, text := name, is_filename := true }]) := by
  constructor
  · cases probe with
    | none => exact ⟨[], by simp [process_file_entry, hskip, hname]⟩
    | some fp =>
      by_cases h1 : size_cap_hit rules fp = true
      · exact ⟨[], by simp [process_file_entry, hskip, hname, h1]⟩
      · by_cases h2 : null_byte_hit fp = true
        · exact ⟨[], by simp [process_file_entry, hskip, hname, h1, h2]⟩
        · exact ⟨content_line_hits query path fp.lines,
            by simp [process_file_entry, hskip, hname, h1, h2]⟩
  · intro fp hfp hor
    subst hfp
    rcases (Bool.or_eq_true _ _).mp hor with h1 | h2
    · simp [process_file_entry, hskip, hname, h1]
    · by_cases h1 : size_cap_hit rules fp = true
      · simp [process_file_entry, hskip, hname, h1]
      · simp [process_file_entry, hskip, hname, h1, h2]

/-- Witness for C10 at a concrete over-cap entry. -/
theorem filename_match_precedes_checks_witness :
    (should_skip_file "abc".data ⟨[], [], 1, 10⟩ = false) ∧
    (rstrContains (toAsciiLower "abc".data) (toAsciiLower "a".data) = true) ∧
    process_file_entry ⟨[], [], 1, 10⟩ "a".data "pa".data "abc".data
        (some ⟨some 2048, some [], []⟩) =
      [{ path := "pa".data, line := 0, text := "abc".data, is_filename := true }] :=
  ⟨by decide, by decide,
    (filename_match_precedes_size_and_binary_checks ⟨[], [], 1, 10⟩ "a".data "pa".data
        "abc".data (some ⟨some 2048, some [], []⟩) (by decide) (by decide)).2
      ⟨some 2048, some [], []⟩ rfl (by decide)⟩
